import Mathlib

/-!
Shallow embedding of `mapswipe2hdx/app.py` (data aggregation and
multi-format export pipeline) and verification of its specification.

Modelling conventions:
* A pandas/geopandas `GeoDataFrame` is a list of attribute column names
  together with rows; each row carries its geometry type (the implicit
  geometry column of geopandas) and a list of attribute cell values
  aligned with the column list.  `NaN` is modelled by `Val.vnull`.
* Python strings appearing in structural computations (the project-id
  regex) are modelled as `List Char` via `String.data`; `re` semantics
  are reproduced on the character list.
* Network / filesystem effects are passed in as explicit arguments
  (oracle functions, `Except` outcomes) and observable actions are
  recorded in traces.
-/

namespace Mapswipe2hdx

/-- A scalar attribute value of a feature (tagged variant per the data
model: string, number, boolean or null; `vnull` models pandas `NaN`). -/
inductive Val where
  | vstr (s : String)
  | vnum (n : Int)
  | vbool (b : Bool)
  | vnull
deriving DecidableEq, Repr

/-- One feature row: the geometry (only its type matters for the
pipeline's branching) and the attribute cells, aligned with the owning
frame's column list. -/
structure Row where
  geomType : String
  cells : List Val
deriving DecidableEq, Repr

/-- Model of a (Geo)DataFrame: attribute column names (the geopandas
geometry column is kept implicit in `Row.geomType`) and the rows. -/
structure GeoDataFrame where
  columns : List String
  rows : List Row
deriving DecidableEq, Repr

/-- pandas `DataFrame.empty` for the frames this pipeline builds: a
fetched GeoDataFrame always has the geometry column, so `empty` holds
exactly when there are no rows. -/
def GeoDataFrame.isEmptyDF (g : GeoDataFrame) : Bool :=
  g.rows.isEmpty

/-- The frame `GeoDataFrame()` that seeds the aggregation loop. -/
def GeoDataFrame.emptyDF : GeoDataFrame := ⟨[], []⟩

/-- Index of a column name in a column list (first occurrence). -/
def colIdx : List String → String → Option Nat
  | [], _ => none
  | c :: cs, d => if c = d then some 0 else (colIdx cs d).map (· + 1)

/-- Cell of a row at a named column; null when the column is absent
(models the reindexing null-fill of `pd.concat`). -/
def getCell (cols : List String) (cells : List Val) (c : String) : Val :=
  match colIdx cols c with
  | some i => cells.getD i Val.vnull
  | none => Val.vnull

/-- Re-align a row's cells from a source column list to a target column
list, filling `vnull` for columns the source lacks. -/
def reindexCells (src tgt : List String) (cells : List Val) : List Val :=
  tgt.map (getCell src cells)

def reindexRow (src tgt : List String) (r : Row) : Row :=
  ⟨r.geomType, reindexCells src tgt r.cells⟩

/-- Column union in `pd.concat` order: the accumulated frame's columns
first, then the new frame's unseen columns in their own order. -/
def unionCols (a b : List String) : List String :=
  a ++ b.filter (fun c => ¬ a.contains c)

/-- `pd.concat([a, b], ignore_index=True)` with the default outer join:
union columns, rows of both frames reindexed (null-filled) to them. -/
def concatDF (a b : GeoDataFrame) : GeoDataFrame :=
  let cols := unionCols a.columns b.columns
  ⟨cols, a.rows.map (reindexRow a.columns cols) ++ b.rows.map (reindexRow b.columns cols)⟩

/-! ### Project identifier resolver (`MapSwipeDataFetcher.extract_project_id`) -/

/-- Python `\w` (ASCII range) together with `-`: the character class
`[-\w]` of the pattern `projects/([-\w]+)/?$`. -/
def isTokenChar (c : Char) : Bool :=
  c = '-' ∨ c = '_' ∨ c.isAlphanum

/-- The literal chunk `projects/` of the pattern. -/
def projChunk : List Char := 'p' :: 'r' :: 'o' :: 'j' :: 'e' :: 'c' :: 't' :: 's' :: '/' :: []

/-- `re.search(r"projects/([-\w]+)/?$", s)`: the pattern is anchored at
the end of the string, so a match exists exactly when, after consuming
at most one trailing `/`, the string ends in `projects/` followed by a
nonempty run of token characters; the captured group is that run.
Because `/` is not a token character the greedy `[-\w]+` is the maximal
trailing token run. -/
def lastProjectsToken (s : List Char) : Option (List Char) :=
  let s1 := if s.getLast? = some '/' then s.dropLast else s
  let r := s1.reverse
  let tok := (r.takeWhile isTokenChar).reverse
  let rest := r.dropWhile isTokenChar
  if tok ≠ [] ∧ projChunk.reverse.isPrefixOf rest then some tok else none

/-- Python `str.startswith("http")`. -/
def startsWithHttp (s : List Char) : Bool :=
  ('h' :: 't' :: 't' :: 'p' :: []).isPrefixOf s

/-- `MapSwipeDataFetcher.extract_project_id`: for a string reference
beginning with `http`, return the captured `projects/<token>` group when
the pattern matches, otherwise (warning logged) the reference unchanged;
references not beginning with `http` are returned unchanged. -/
def extract_project_id (s : String) : String :=
  if startsWithHttp s.data then
    match lastProjectsToken s.data with
    | some tok => String.mk tok
    | none => s
  else s

/-! ### Project fetcher (`MapSwipeDataFetcher.fetch_project_data`) -/

/-- Failure of one retrieval: non-success HTTP status
(`raise_for_status`) or unparseable payload (`gpd.read_file`). -/
inductive FetchErr where
  | httpError (status : Nat)
  | parseError (msg : String)
deriving DecidableEq, Repr

def FetchErr.message : FetchErr → String
  | .httpError status => "HTTP status " ++ toString status
  | .parseError msg => msg

/-- `fetch_project_data`, given the outcome of the yes/maybe retrieval
and of the AOI retrieval: on any failure of either, the `except` branch
logs the error and returns `(None, None)` (modelled `none`); no retry is
performed and no exception escapes (the function is total). -/
def fetch_project_data (projectId : String)
    (yesMaybeRetrieval aoiRetrieval : Except FetchErr GeoDataFrame) :
    Option (GeoDataFrame × GeoDataFrame) × List String :=
  match yesMaybeRetrieval with
  | .error e =>
      (none, ["Failed to fetch data for project " ++ projectId ++ ": " ++ e.message])
  | .ok dataYesMaybe =>
      match aoiRetrieval with
      | .error e =>
          (none, ["Failed to fetch data for project " ++ projectId ++ ": " ++ e.message])
      | .ok aoiData => (some (dataYesMaybe, aoiData), [])

/-! ### Schema-reconciling aggregator (`MapSwipeDataAggregator.aggregate_project_data`) -/

/-- One entry of `config.PROJECTS`: the raw `project_id` reference and
the optional `name` display name. -/
structure ProjectRef where
  pid : String
  name : Option String
deriving DecidableEq, Repr

/-- `df["project_name"] = project_name` guarded by
`if "project_name" not in df.columns`: when the column is absent it is
appended and every row receives the scalar; otherwise the frame is left
untouched. -/
def tagProjectName (projectName : String) (df : GeoDataFrame) : GeoDataFrame :=
  if df.columns.contains "project_name" then df
  else ⟨df.columns ++ ["project_name"],
        df.rows.map (fun r => ⟨r.geomType, r.cells ++ [Val.vstr projectName]⟩)⟩

/-- The accumulate step of the loop:
`combined = df.copy() if combined.empty else pd.concat([combined, df], ignore_index=True)`. -/
def stepCombine (acc df : GeoDataFrame) : GeoDataFrame :=
  if acc.isEmptyDF then df else concatDF acc df

/-- The per-project body of the aggregation loop: resolve the id, pick
the display name (default `Project {id}` from the resolved id), fetch
the pair through the oracle, and on success tag and accumulate both
sides; on a `(None, None)` fetch the project is skipped. -/
def aggregateStep (fetch : String → Option (GeoDataFrame × GeoDataFrame))
    (st : GeoDataFrame × GeoDataFrame) (p : ProjectRef) :
    GeoDataFrame × GeoDataFrame :=
  let projectId := extract_project_id p.pid
  let projectName := p.name.getD ("Project " ++ projectId)
  match fetch projectId with
  | none => st
  | some (dataYesMaybe, aoiData) =>
      (stepCombine st.1 (tagProjectName projectName dataYesMaybe),
       stepCombine st.2 (tagProjectName projectName aoiData))

/-- `aggregate_project_data`, with the network abstracted as a fetch
oracle from resolved project id to the result of
`fetch_project_data` (`none` models the `(None, None)` failure pair). -/
def aggregate_project_data (fetch : String → Option (GeoDataFrame × GeoDataFrame))
    (projects : List ProjectRef) : GeoDataFrame × GeoDataFrame :=
  projects.foldl (aggregateStep fetch) (GeoDataFrame.emptyDF, GeoDataFrame.emptyDF)

/-- The same loop instrumented with the sequence of resolved ids passed
to `fetch_project_data` (one oracle call per loop iteration). -/
def aggregate_project_data_trace (fetch : String → Option (GeoDataFrame × GeoDataFrame))
    (projects : List ProjectRef) : (GeoDataFrame × GeoDataFrame) × List String :=
  projects.foldl
    (fun st p => (aggregateStep fetch st.1 p, st.2 ++ [extract_project_id p.pid]))
    ((GeoDataFrame.emptyDF, GeoDataFrame.emptyDF), [])

/-! ### Multi-format exporter (`HDXDatasetCreator.export_shapefile` and the format loop) -/

/-- `pandas.unique` on a column: the distinct values in order of first
appearance. -/
def dedupFirst : List String → List String
  | [] => []
  | x :: xs => x :: (dedupFirst xs).filter (fun y => y ≠ x)

/-- `export_shapefile`: partition the frame's rows by geometry type
(`gdf.geometry.type.unique()`, so only types with at least one feature
appear) and write one `{dir_path}/{name}_{geom_type}.shp` per type with
exactly the rows of that type.  Result: the written files as
(path, rows written). -/
def export_shapefile (gdf : GeoDataFrame) (name dirPath : String) :
    List (String × List Row) :=
  let geomTypes := dedupFirst (gdf.rows.map (fun r => r.geomType))
  geomTypes.map (fun t =>
    (dirPath ++ "/" ++ name ++ "_" ++ t ++ ".shp",
     gdf.rows.filter (fun r => r.geomType = t)))

/-- Outcome of the per-format loop of `create_and_upload_dataset`:
which formats were attempted (loop iterations entered), the zip paths
collected, the error-log lines emitted, and the exception re-raised by
`raise e` (when any). -/
structure ExportRun where
  attempted : List String
  zipPaths : List String
  logs : List String
  fatal : Option String
deriving DecidableEq, Repr

/-- The `for fmt in self.config.FILE_FORMATS` loop: each format's body
(directory creation, file export, zipping) is abstracted as an oracle
returning the zip path or the raised exception.  The `except` clause
logs `Error exporting to {fmt}: {e}` and re-raises `e`, which leaves
the loop at once: no later format is attempted. -/
def exportFormats (runFmt : String → Except String String) :
    List String → ExportRun
  | [] => ⟨[], [], [], none⟩
  | fmt :: rest =>
      match runFmt fmt with
      | .ok zipPath =>
          let r := exportFormats runFmt rest
          ⟨fmt :: r.attempted, zipPath :: r.zipPaths, r.logs, r.fatal⟩
      | .error e =>
          ⟨[fmt], [], ["Error exporting to " ++ fmt ++ ": " ++ e], some e⟩

/-! ### Archive packager (`HDXDatasetCreator.file_to_zip`) -/

/-- `buffer_size = 4 * 1024 * 1024` (4 MiB). -/
def buffer_size : Nat := 4 * 1024 * 1024

/-- `file_size_mb = os.path.getsize(file_path) / (1024 * 1024)`: exact
real division (Python float division by the power of two is exact for
all sizes below 2^53). -/
def file_size_mb (sizeBytes : Nat) : ℚ :=
  (sizeBytes : ℚ) / (1024 * 1024)

/-- The branch condition `if file_size_mb > 100`: `true` selects the
streamed member-by-member path, `false` the whole-file `zf.write`. -/
def usesStreaming (sizeBytes : Nat) : Bool :=
  decide ((100 : ℚ) < file_size_mb sizeBytes)

/-- The sizes of the successive reads `shutil.copyfileobj` performs
with `buffer_size`-byte reads: full buffers, then the remainder. -/
def chunkSizes (n : Nat) : List Nat :=
  if h : n = 0 then []
  else Nat.min n buffer_size :: chunkSizes (n - buffer_size)
termination_by n
decreasing_by
  exact Nat.sub_lt (Nat.pos_of_ne_zero h) (by decide)

/-- Observable actions of `file_to_zip`, in program order. -/
inductive ZipAction where
  | deflateWrite (memberName : String) (sizeBytes : Nat)
  | streamWrite (memberName : String) (chunks : List Nat)
  | manifestWrite (memberName : String)
  | rmtreeCall (dir : String)
deriving DecidableEq, Repr

/-- The archive member written for one file under `working_dir`:
whole-file `zf.write` when `file_size_mb > 100` is false, else the
streamed copy through the 4 MiB buffer. -/
def memberAction (file : String × Nat) : ZipAction :=
  if usesStreaming file.2 then ZipAction.streamWrite file.1 (chunkSizes file.2)
  else ZipAction.deflateWrite file.1 file.2

/-- `file_to_zip` over the files (name, byte size) found directly under
`working_dir`, with `shutil.rmtree`'s outcome passed in: writes every
member, then the `Readme.txt` manifest, then removes the directory;
an `rmtree` failure propagates out of the call (it is not caught). -/
def file_to_zip (workingDir : String) (files : List (String × Nat))
    (rmtreeResult : Except String Unit) (zipPath : String) :
    Except String String × List ZipAction :=
  let acts := files.map memberAction ++ [ZipAction.manifestWrite "Readme.txt"]
  match rmtreeResult with
  | .ok _ => (.ok zipPath, acts ++ [ZipAction.rmtreeCall workingDir])
  | .error e => (.error e, acts ++ [ZipAction.rmtreeCall workingDir])

/-- The zip members among a trace of packager actions (everything the
archive file itself contains). -/
def zipMembers (acts : List ZipAction) : List ZipAction :=
  acts.filter (fun a =>
    match a with
    | ZipAction.rmtreeCall _ => false
    | _ => true)

/-! ### Description builder (`HDXDatasetCreator.attach_project_links_to_description`) -/

/-- The id placed in a project's link URL: for an `http`-prefixed
reference the regex capture when it matches, otherwise the reference
unchanged — the same computation as `extract_project_id` (only the
warning log differs). -/
def linkProjectId (pid : String) : String :=
  extract_project_id pid

/-- One `- [{project_name}]({project_url})` bullet.  Note the display
name default `Project {id}` here uses the raw reference: in this
function the name is computed before the URL extraction. -/
def projectLink (p : ProjectRef) : String :=
  "- [" ++ p.name.getD ("Project " ++ p.pid) ++ "](https://mapswipe.org/en/projects/"
    ++ linkProjectId p.pid ++ "/)"

/-- Python `str.endswith("\n\n")`. -/
def endsWithTwoNewlines (s : String) : Bool :=
  ('\n' :: '\n' :: []).isSuffixOf s.data

/-- `attach_project_links_to_description`: start from
`base_description or DATASET_DESCRIPTION` (Python `or`: `None` or `""`
falls back to the configured description), build one link per entry of
`config.PROJECTS` in configuration order, and append them under a
` Source MapSwipe Projects` header when any exist. -/
def attach_project_links_to_description (projects : List ProjectRef)
    (baseDescription : Option String) (datasetDescription : String) : String :=
  let description :=
    match baseDescription with
    | some b => if b = "" then datasetDescription else b
    | none => datasetDescription
  let projectLinks := projects.map projectLink
  if projectLinks.isEmpty then description
  else
    let description :=
      if description ≠ "" ∧ ¬ endsWithTwoNewlines description
      then description ++ "\n\n" else description
    description ++ " Source MapSwipe Projects\n\n"
      ++ String.intercalate "\n" projectLinks

/-- The `notes` field assembled by `create_and_upload_dataset`: computed
from the settings alone; the two aggregated collections passed to the
method are not consulted. -/
def datasetNotes (projects : List ProjectRef) (datasetDescription : String)
    (_combinedYesMaybe _combinedAoi : GeoDataFrame) : String :=
  attach_project_links_to_description projects (some datasetDescription)
    datasetDescription

/-! ## Theorems -/

theorem usesStreaming_eq (n : Nat) : usesStreaming n = decide (104857600 < n) := by
  have h : ((100 : ℚ) < file_size_mb n) ↔ (104857600 < n) := by
    rw [file_size_mb, lt_div_iff₀ (by norm_num : (0 : ℚ) < 1024 * 1024)]
    norm_num
  rw [usesStreaming, decide_eq_decide]
  exact h

theorem chunkSizes_sum (n : Nat) : (chunkSizes n).sum = n := by
  induction n using Nat.strong_induction_on with
  | _ n ih =>
    rw [chunkSizes]
    split
    · simp [*]
    · rename_i h
      rw [List.sum_cons,
        ih (n - buffer_size) (Nat.sub_lt (Nat.pos_of_ne_zero h) (by decide))]
      show min n buffer_size + (n - buffer_size) = n
      have hb : 0 < buffer_size := by decide
      omega

theorem chunkSizes_bounded (n : Nat) :
    ((chunkSizes n).all (fun c => c ≤ buffer_size)) = true := by
  induction n using Nat.strong_induction_on with
  | _ n ih =>
    rw [chunkSizes]
    split
    · simp
    · rename_i h
      rw [List.all_cons,
        ih (n - buffer_size) (Nat.sub_lt (Nat.pos_of_ne_zero h) (by decide))]
      simp [Nat.min_le_right]

/-- C4 (amended): a file directly under the output directory is added via the
archive's whole-file compression path exactly when its size is at most
100 MB (104857600 bytes), and is streamed through the fixed 4 MiB buffer —
chunks each at most `buffer_size` bytes, together covering the whole file —
exactly when its size is strictly above 100 MB; a file of exactly 100 MB
takes the whole-file path. -/
theorem c4_streaming_threshold (name : String) (size : Nat) :
    (usesStreaming size = true ↔ 104857600 < size) ∧
    memberAction (name, size)
      = (if 104857600 < size then ZipAction.streamWrite name (chunkSizes size)
         else ZipAction.deflateWrite name size) ∧
    (chunkSizes size).sum = size ∧
    ((chunkSizes size).all (fun c => c ≤ buffer_size)) = true := by
  refine ⟨?_, ?_, chunkSizes_sum size, chunkSizes_bounded size⟩
  · rw [usesStreaming_eq]; simp
  · rw [memberAction, usesStreaming_eq]
    by_cases h : 104857600 < size <;> simp [h]

/-- C4, counterexample: a file of exactly 100 MB (104857600 bytes) is added
via the whole-file `zf.write` path, not streamed — `file_size_mb > 100` is a
strict comparison — refuting the claim's "a file of exactly 100 MB is
streamed". -/
theorem c4_counterexample :
    memberAction ("results_yes_maybe_Point.shp", 100 * 1024 * 1024)
      = ZipAction.deflateWrite "results_yes_maybe_Point.shp" (100 * 1024 * 1024) ∧
    usesStreaming (100 * 1024 * 1024) = false := by
  constructor
  · rw [memberAction, usesStreaming_eq]
    norm_num
  · rw [usesStreaming_eq]
    norm_num


/-- An exporter oracle on which the `geojson` format's body raises. -/
def geojsonFailsExporter : String → Except String String :=
  fun fmt => if fmt = "geojson" then Except.error "disk full" else Except.ok (fmt ++ ".zip")

/-- C3, counterexample: with requested formats `["geojson", "gpkg"]` and the
`geojson` body raising, the loop attempts only `geojson` and re-raises; the
claim's "the pipeline continues with the remaining requested formats" fails:
`gpkg` is never attempted. -/
theorem c3_counterexample :
    (exportFormats geojsonFailsExporter ["geojson", "gpkg"]).attempted = ["geojson"] ∧
    "gpkg" ∉ (exportFormats geojsonFailsExporter ["geojson", "gpkg"]).attempted ∧
    (exportFormats geojsonFailsExporter ["geojson", "gpkg"]).fatal = some "disk full" := by
  refine ⟨rfl, ?_, rfl⟩
  decide

/-- C3 (amended): when writing one export format fails (after any earlier
formats succeeded), an error naming the format is logged and the exception is
re-raised immediately, so that format and all remaining formats are
abandoned and the run halts; no later format is attempted. -/
theorem c3_format_failure_halts (runFmt : String → Except String String)
    (pre post : List String) (fmt e : String)
    (hpre : ∀ g ∈ pre, ∃ z, runFmt g = Except.ok z)
    (hf : runFmt fmt = Except.error e) :
    (exportFormats runFmt (pre ++ fmt :: post)).attempted = pre ++ [fmt] ∧
    (exportFormats runFmt (pre ++ fmt :: post)).fatal = some e ∧
    ("Error exporting to " ++ fmt ++ ": " ++ e) ∈ (exportFormats runFmt (pre ++ fmt :: post)).logs := by
  induction pre with
  | nil => simp [exportFormats, hf]
  | cons g gs ih =>
    obtain ⟨z, hz⟩ := hpre g (by simp)
    have h2 := ih (fun g' hg' => hpre g' (by simp [hg']))
    simp only [List.cons_append, exportFormats, hz]
    exact ⟨by simp [h2.1], by simp [h2.2.1], by simp [h2.2.2]⟩

theorem c3_format_failure_halts_witness :
    (exportFormats geojsonFailsExporter (["gpkg"] ++ "geojson" :: ["kml"])).attempted = ["gpkg"] ++ ["geojson"] ∧
    (exportFormats geojsonFailsExporter (["gpkg"] ++ "geojson" :: ["kml"])).fatal = some "disk full" ∧
    ("Error exporting to " ++ "geojson" ++ ": " ++ "disk full")
      ∈ (exportFormats geojsonFailsExporter (["gpkg"] ++ "geojson" :: ["kml"])).logs :=
  c3_format_failure_halts geojsonFailsExporter ["gpkg"] ["kml"] "geojson" "disk full"
    (by intro g hg; simp at hg; subst hg; exact ⟨"gpkg" ++ ".zip", rfl⟩)
    rfl

/-- C8, counterexample: when `shutil.rmtree` fails, `file_to_zip` fails with
that very error (nothing catches or logs it), refuting "a failure of that
deletion is logged but does not make the packaging call fail". -/
theorem c8_counterexample :
    (file_to_zip "mapswipe_results_geojson" [("results_yes_maybe.geojson", 2048)]
      (Except.error "Permission denied") "mapswipe_results_geojson.zip").1
      = Except.error "Permission denied" := rfl

/-- C8 (amended): for every packaging call the source directory deletion is
attempted only after all archive members and the manifest are written; when
the deletion succeeds the call returns the archive path, and when the
deletion fails that error propagates out of the call uncaught. -/
theorem c8_rmtree_after_archive (dir zipPath : String) (files : List (String × Nat))
    (rm : Except String Unit) :
    (file_to_zip dir files rm zipPath).2
      = files.map memberAction
        ++ [ZipAction.manifestWrite "Readme.txt", ZipAction.rmtreeCall dir] ∧
    (rm = Except.ok () → (file_to_zip dir files rm zipPath).1 = Except.ok zipPath) ∧
    (∀ e, rm = Except.error e → (file_to_zip dir files rm zipPath).1 = Except.error e) := by
  cases rm <;> simp [file_to_zip]

theorem c8_rmtree_after_archive_witness :
    (file_to_zip "d" [] (Except.error "boom") "z.zip").1 = Except.error "boom" ∧
    (file_to_zip "d" [] (Except.error "boom") "z.zip").2
      = [ZipAction.manifestWrite "Readme.txt", ZipAction.rmtreeCall "d"] :=
  ⟨(c8_rmtree_after_archive "d" "z.zip" [] (Except.error "boom")).2.2 "boom" rfl,
   (c8_rmtree_after_archive "d" "z.zip" [] (Except.error "boom")).1⟩

/-- Helper: data members pass the `zipMembers` filter. -/
theorem zipMembers_memberActions (files : List (String × Nat)) (rest : List ZipAction) :
    zipMembers (files.map memberAction ++ rest) = files.map memberAction ++ zipMembers rest := by
  induction files with
  | nil => rfl
  | cons f fs ih =>
    simp only [List.map_cons, List.cons_append]
    rw [zipMembers, List.filter_cons]
    have : (fun a => match a with
        | ZipAction.rmtreeCall _ => false
        | _ => true) (memberAction f) = true := by
      rw [memberAction]
      cases usesStreaming f.2 <;> simp
    rw [if_pos this]
    rw [← zipMembers, ih]

/-- C9: every archive `file_to_zip` produces contains the manifest member
`Readme.txt`, written after all data members (it is the last member), and
hence every archive has at least one member even when the source directory
holds no files. -/
theorem c9_manifest_member (dir zipPath : String) (files : List (String × Nat))
    (rm : Except String Unit) :
    zipMembers (file_to_zip dir files rm zipPath).2
      = files.map memberAction ++ [ZipAction.manifestWrite "Readme.txt"] ∧
    (zipMembers (file_to_zip dir files rm zipPath).2).getLast?
      = some (ZipAction.manifestWrite "Readme.txt") ∧
    1 ≤ (zipMembers (file_to_zip dir files rm zipPath).2).length := by
  have hacts : (file_to_zip dir files rm zipPath).2
      = files.map memberAction
        ++ [ZipAction.manifestWrite "Readme.txt", ZipAction.rmtreeCall dir] := by
    cases rm <;> simp [file_to_zip]
  have hmem : zipMembers (file_to_zip dir files rm zipPath).2
      = files.map memberAction ++ [ZipAction.manifestWrite "Readme.txt"] := by
    rw [hacts, zipMembers_memberActions]
    rfl
  refine ⟨hmem, ?_, ?_⟩
  · rw [hmem]
    simp
  · rw [hmem]
    simp


/-- Helper: `takeWhile` over a block of satisfying elements followed by a
failing element takes exactly the block. -/
theorem takeWhile_block {α} (p : α → Bool) (l : List α) (a : α) (r : List α)
    (hl : ∀ x ∈ l, p x = true) (ha : p a = false) :
    (l ++ a :: r).takeWhile p = l := by
  induction l with
  | nil => simp [List.takeWhile_cons, ha]
  | cons x xs ih =>
    have hx : p x = true := hl x (by simp)
    rw [List.cons_append, List.takeWhile_cons_of_pos hx,
      ih (fun y hy => hl y (by simp [hy]))]

/-- Helper: `dropWhile` over a block of satisfying elements followed by a
failing element drops exactly the block. -/
theorem dropWhile_block {α} (p : α → Bool) (l : List α) (a : α) (r : List α)
    (hl : ∀ x ∈ l, p x = true) (ha : p a = false) :
    (l ++ a :: r).dropWhile p = a :: r := by
  induction l with
  | nil => simp [List.dropWhile_cons, ha]
  | cons x xs ih =>
    have hx : p x = true := hl x (by simp)
    rw [List.cons_append, List.dropWhile_cons_of_pos hx]
    exact ih (fun y hy => hl y (by simp [hy]))

theorem isTokenChar_slash : isTokenChar '/' = false := by decide

theorem projChunk_reverse :
    projChunk.reverse
      = '/' :: ('s' :: 't' :: 'c' :: 'e' :: 'j' :: 'o' :: 'r' :: 'p' :: []) := by decide

/-- Helper: the take/drop decomposition of a string of the shape
`pre ++ "projects/" ++ t` reversed, for a token-run `t`. -/
theorem lastProjectsToken_core (pre t : List Char)
    (hchars : ∀ c ∈ t, isTokenChar c = true) :
    ((pre ++ projChunk ++ t).reverse.takeWhile isTokenChar).reverse = t ∧
    (pre ++ projChunk ++ t).reverse.dropWhile isTokenChar
      = projChunk.reverse ++ pre.reverse := by
  have hrev : (pre ++ projChunk ++ t).reverse
      = t.reverse ++ '/' :: (('s' :: 't' :: 'c' :: 'e' :: 'j' :: 'o' :: 'r' :: 'p' :: [])
        ++ pre.reverse) := by
    rw [List.reverse_append, List.reverse_append, projChunk_reverse]
    simp
  have hall : ∀ x ∈ t.reverse, isTokenChar x = true := by
    intro x hx
    exact hchars x (List.mem_reverse.mp hx)
  constructor
  · rw [hrev, takeWhile_block isTokenChar _ _ _ hall isTokenChar_slash,
      List.reverse_reverse]
  · rw [hrev, dropWhile_block isTokenChar _ _ _ hall isTokenChar_slash,
      projChunk_reverse]
    simp

/-- The regex `projects/([-\w]+)/?$` matches with capture `t` exactly when
the string ends with `projects/<t>` or `projects/<t>/` for a nonempty `t`
of token characters. -/
theorem lastProjectsToken_eq_some_iff (s t : List Char) :
    lastProjectsToken s = some t ↔
      t ≠ [] ∧ (∀ c ∈ t, isTokenChar c = true) ∧
      ∃ pre, s = pre ++ projChunk ++ t ∨ s = pre ++ projChunk ++ t ++ ['/'] := by
  constructor
  · intro h
    rw [lastProjectsToken] at h
    set s1 := if s.getLast? = some '/' then s.dropLast else s with hs1
    by_cases hcond : ((s1.reverse.takeWhile isTokenChar).reverse ≠ [] ∧
        projChunk.reverse.isPrefixOf (s1.reverse.dropWhile isTokenChar))
    · rw [if_pos hcond] at h
      obtain ⟨htok, hpref⟩ := hcond
      have ht : t = (s1.reverse.takeWhile isTokenChar).reverse :=
        (Option.some.injEq _ _ ▸ h).symm
      have htchars : ∀ c ∈ t, isTokenChar c = true := by
        intro c hc
        rw [ht, List.mem_reverse] at hc
        exact List.mem_takeWhile_imp hc
      obtain ⟨u, hu⟩ : ∃ u, s1.reverse.dropWhile isTokenChar = projChunk.reverse ++ u := by
        obtain ⟨u, hu⟩ := List.isPrefixOf_iff_prefix.mp hpref
        exact ⟨u, hu.symm⟩
      have hs1eq : s1 = u.reverse ++ projChunk ++ t := by
        have hsplit : s1.reverse.takeWhile isTokenChar ++ s1.reverse.dropWhile isTokenChar
            = s1.reverse := List.takeWhile_append_dropWhile isTokenChar ..
        have hdecomp : s1 = (s1.reverse.dropWhile isTokenChar).reverse
            ++ (s1.reverse.takeWhile isTokenChar).reverse := by
          conv_lhs => rw [← List.reverse_reverse s1, ← hsplit]
          rw [List.reverse_append]
        rw [hdecomp, hu, List.reverse_append, List.reverse_reverse, ht, List.append_assoc]
      refine ⟨ht ▸ htok, htchars, u.reverse, ?_⟩
      by_cases hlast : s.getLast? = some '/'
      · right
        have hne : s ≠ [] := by
          intro hnil; rw [hnil] at hlast; simp at hlast
        have hsplit : s.dropLast ++ [s.getLast hne] = s := List.dropLast_concat_getLast hne
        have hgl : s.getLast hne = '/' := by
          have hq := List.getLast?_eq_getLast s hne
          rw [hlast] at hq
          exact (Option.some.injEq _ _ ▸ hq).symm
        rw [hs1, if_pos hlast] at hs1eq
        rw [← hsplit, hgl, hs1eq]
      · rw [hs1, if_neg hlast] at hs1eq
        exact Or.inl hs1eq
    · rw [if_neg hcond] at h
      exact absurd h (by simp)
  · rintro ⟨hne, hchars, pre, hcase | hcase⟩
    · have hc : t.getLast? = some (t.getLast hne) := List.getLast?_eq_getLast t hne
      have hcch : isTokenChar (t.getLast hne) = true := hchars _ (List.getLast_mem hne)
      have hcns : t.getLast hne ≠ '/' := by
        intro hq; rw [hq] at hcch; exact absurd hcch (by decide)
      have hlast : ¬ (s.getLast? = some '/') := by
        rw [hcase, List.append_assoc, List.getLast?_append, List.getLast?_append, hc]
        simp only [Option.or_some]
        intro hq
        exact hcns (by injection hq)
      have hcore := lastProjectsToken_core pre t hchars
      have hs1v : (if s.getLast? = some '/' then s.dropLast else s)
          = pre ++ projChunk ++ t := by
        rw [if_neg hlast, hcase]
      simp only [lastProjectsToken]
      rw [hs1v, hcore.1, hcore.2,
        if_pos ⟨hne, List.isPrefixOf_iff_prefix.mpr (List.prefix_append _ _)⟩]
    · have hlast : s.getLast? = some '/' := by
        rw [hcase, List.getLast?_append]
        simp
      have hcore := lastProjectsToken_core pre t hchars
      have hs1v : (if s.getLast? = some '/' then s.dropLast else s)
          = pre ++ projChunk ++ t := by
        rw [if_pos hlast, hcase, List.dropLast_concat]
      simp only [lastProjectsToken]
      rw [hs1v, hcore.1, hcore.2,
        if_pos ⟨hne, List.isPrefixOf_iff_prefix.mpr (List.prefix_append _ _)⟩]


/-- The claim's guard, following the spec's words: the reference begins
with an HTTP(S) scheme (`http://` or `https://`).  Used only to compare
the claim against the implementation's guard `startsWithHttp`. -/
def beginsWithHttpSchemeSpec (s : String) : Bool :=
  ('h' :: 't' :: 't' :: 'p' :: ':' :: '/' :: '/' :: []).isPrefixOf s.data
  || ('h' :: 't' :: 't' :: 'p' :: 's' :: ':' :: '/' :: '/' :: []).isPrefixOf s.data

/-- C6, counterexample: the reference `httpx/projects/abc` does not begin
with an HTTP(S) scheme, so the claim requires it to be returned unchanged;
the code's guard is merely `startswith("http")`, the regex then matches,
and the resolver returns `abc` instead. -/
theorem c6_counterexample :
    extract_project_id "httpx/projects/abc" = "abc" ∧
    beginsWithHttpSchemeSpec "httpx/projects/abc" = false ∧
    ("abc" : String) ≠ "httpx/projects/abc" := by
  refine ⟨by decide, by decide, by decide⟩

/-- C6 (amended): for every string reference, if it begins with the four
characters `http` the resolver returns the captured `projects/<token>`
trailing path segment when the pattern matches — the token is nonempty,
consists of alphanumerics, hyphens and underscores, and the reference ends
with `projects/<token>` or `projects/<token>/`; when the pattern does not
match it logs a warning and returns the reference unchanged, and no such
trailing segment exists; if the reference does not begin with `http` it is
returned unchanged.  The resolver is a pure function of the reference. -/
theorem c6_resolver (s : String) :
    (startsWithHttp s.data = false → extract_project_id s = s) ∧
    (∀ t, startsWithHttp s.data = true → lastProjectsToken s.data = some t →
      extract_project_id s = String.mk t ∧ t ≠ [] ∧
      (∀ c ∈ t, isTokenChar c = true) ∧
      (∃ pre, s.data = pre ++ projChunk ++ t ∨ s.data = pre ++ projChunk ++ t ++ ['/'])) ∧
    (startsWithHttp s.data = true → lastProjectsToken s.data = none →
      extract_project_id s = s ∧
      (∀ t, t ≠ [] → (∀ c ∈ t, isTokenChar c = true) →
        ∀ pre, s.data ≠ pre ++ projChunk ++ t ∧ s.data ≠ pre ++ projChunk ++ t ++ ['/'])) := by
  refine ⟨?_, ?_, ?_⟩
  · intro hf
    rw [extract_project_id, if_neg (by rw [hf]; exact Bool.false_ne_true)]
  · intro t htrue hsome
    obtain ⟨hne, hchars, pre, hdec⟩ := (lastProjectsToken_eq_some_iff s.data t).mp hsome
    refine ⟨?_, hne, hchars, pre, hdec⟩
    rw [extract_project_id, if_pos htrue, hsome]
  · intro htrue hnone
    constructor
    · rw [extract_project_id, if_pos htrue, hnone]
    · intro t hne hchars pre
      constructor
      · intro hdec
        have : lastProjectsToken s.data = some t :=
          (lastProjectsToken_eq_some_iff s.data t).mpr ⟨hne, hchars, pre, Or.inl hdec⟩
        rw [hnone] at this
        exact absurd this (by simp)
      · intro hdec
        have : lastProjectsToken s.data = some t :=
          (lastProjectsToken_eq_some_iff s.data t).mpr ⟨hne, hchars, pre, Or.inr hdec⟩
        rw [hnone] at this
        exact absurd this (by simp)

theorem c6_resolver_witness :
    extract_project_id "https://mapswipe.org/en/projects/-OMTfDy03ThqukWPeBVp/"
      = String.mk ("-OMTfDy03ThqukWPeBVp".data) ∧
    extract_project_id "-OMunaJmhQt4kOIb2gGH" = "-OMunaJmhQt4kOIb2gGH" ∧
    extract_project_id "http://example.org/nothing-here"
      = "http://example.org/nothing-here" :=
  ⟨((c6_resolver "https://mapswipe.org/en/projects/-OMTfDy03ThqukWPeBVp/").2.1
      ("-OMTfDy03ThqukWPeBVp".data) (by decide) (by decide)).1,
   (c6_resolver "-OMunaJmhQt4kOIb2gGH").1 (by decide),
   ((c6_resolver "http://example.org/nothing-here").2.2 (by decide) (by decide)).1⟩


theorem dedupFirst_mem (l : List String) (t : String) :
    t ∈ dedupFirst l ↔ t ∈ l := by
  induction l with
  | nil => simp [dedupFirst]
  | cons x xs ih =>
    rw [dedupFirst]
    by_cases hxt : t = x
    · simp [hxt]
    · simp only [List.mem_cons, hxt, false_or, List.mem_filter, ih]
      constructor
      · rintro ⟨hm, _⟩; exact hm
      · intro hm; exact ⟨hm, by simp [hxt]⟩

theorem dedupFirst_nodup (l : List String) : (dedupFirst l).Nodup := by
  induction l with
  | nil => simp [dedupFirst]
  | cons x xs ih =>
    rw [dedupFirst]
    refine List.nodup_cons.mpr ⟨?_, List.Nodup.filter _ ih⟩
    intro hx
    rw [List.mem_filter] at hx
    simp at hx

/-- Helper: counting a row in the concatenation of the per-type filters
over a duplicate-free list of types. -/
theorem count_bind_filter_geomType (ts : List String) (hnd : ts.Nodup)
    (rows : List Row) (r : Row) :
    (ts.flatMap (fun t => rows.filter (fun x => x.geomType = t))).count r
      = if r.geomType ∈ ts then rows.count r else 0 := by
  induction ts with
  | nil => simp
  | cons t ts ih =>
    rw [List.flatMap_cons, List.count_append,
      ih (List.nodup_cons.mp hnd).2]
    by_cases hrt : r.geomType = t
    · have h1 : (rows.filter (fun x => x.geomType = t)).count r = rows.count r :=
        List.count_filter (by simp [hrt])
      have h2 : r.geomType ∉ ts := hrt ▸ (List.nodup_cons.mp hnd).1
      rw [h1, if_neg h2, if_pos (by simp [hrt])]
      omega
    · have h1 : (rows.filter (fun x => x.geomType = t)).count r = 0 := by
        refine List.count_eq_zero.mpr ?_
        intro hmem
        exact hrt (by simpa using (List.mem_filter.mp hmem).2)
      rw [h1]
      by_cases hmem : r.geomType ∈ ts
      · rw [if_pos hmem, if_pos (by simp [hmem])]
        omega
      · rw [if_neg hmem, if_neg (by simp [hrt, hmem])]

/-- C5: `export_shapefile` partitions the features by geometry type and
writes exactly one `{dir}/{name}_{geometry_type}.shp` per geometry type
with at least one feature (types with zero features produce no file); the
files are pairwise over distinct types, every file is nonempty, every
feature of the input occurs in the union of the files exactly as often as
in the input, and every feature of the input lies in exactly one file. -/
theorem c5_geometry_partitioning (gdf : GeoDataFrame) (name dirPath : String) :
    (∀ e ∈ export_shapefile gdf name dirPath, e.2 ≠ []) ∧
    ((export_shapefile gdf name dirPath).map Prod.fst
      = (dedupFirst (gdf.rows.map (fun r => r.geomType))).map
          (fun t => dirPath ++ "/" ++ name ++ "_" ++ t ++ ".shp")) ∧
    (∀ t : String, (∃ e ∈ export_shapefile gdf name dirPath,
        e.1 = dirPath ++ "/" ++ name ++ "_" ++ t ++ ".shp" ∧
        e.2 = gdf.rows.filter (fun x => x.geomType = t))
      ↔ t ∈ gdf.rows.map (fun r => r.geomType)) ∧
    (∀ r : Row, ((export_shapefile gdf name dirPath).flatMap Prod.snd).count r
      = gdf.rows.count r) ∧
    (∀ r ∈ gdf.rows,
      ((export_shapefile gdf name dirPath).countP (fun e => r ∈ e.2)) = 1) := by
  have hne : ∀ t ∈ dedupFirst (gdf.rows.map (fun r => r.geomType)),
      gdf.rows.filter (fun x => x.geomType = t) ≠ [] := by
    intro t ht
    rw [dedupFirst_mem, List.mem_map] at ht
    obtain ⟨r, hr, rfl⟩ := ht
    intro hnil
    have hmem : r ∈ gdf.rows.filter (fun x => x.geomType = r.geomType) :=
      List.mem_filter.mpr ⟨hr, by simp⟩
    rw [hnil] at hmem
    simp at hmem
  refine ⟨?_, ?_, ?_, ?_, ?_⟩
  · intro e he
    simp only [export_shapefile, List.mem_map] at he
    obtain ⟨t, ht, rfl⟩ := he
    exact hne t ht
  · simp only [export_shapefile, List.map_map]
    rfl
  · intro t
    constructor
    · rintro ⟨e, he, _, hfilt⟩
      simp only [export_shapefile, List.mem_map] at he
      obtain ⟨t', ht', rfl⟩ := he
      have hfne : gdf.rows.filter (fun x => x.geomType = t) ≠ [] := by
        rw [← hfilt]
        exact hne t' ht'
      obtain ⟨x, hx⟩ := List.exists_mem_of_ne_nil _ hfne
      obtain ⟨hxrows, hxt⟩ := List.mem_filter.mp hx
      rw [List.mem_map]
      exact ⟨x, hxrows, by simpa using hxt⟩
    · intro ht
      refine ⟨(dirPath ++ "/" ++ name ++ "_" ++ t ++ ".shp",
        gdf.rows.filter (fun x => x.geomType = t)), ?_, rfl, rfl⟩
      simp only [export_shapefile, List.mem_map]
      exact ⟨t, (dedupFirst_mem _ _).mpr ht, rfl⟩
  · intro r
    simp only [export_shapefile]
    rw [List.flatMap_map]
    have hcnt := count_bind_filter_geomType
      (dedupFirst (gdf.rows.map (fun x => x.geomType)))
      (dedupFirst_nodup _) gdf.rows r
    by_cases hr : r.geomType ∈ dedupFirst (gdf.rows.map (fun x => x.geomType))
    · rw [hcnt, if_pos hr]
    · rw [hcnt, if_neg hr]
      have hrr : r ∉ gdf.rows := by
        intro hmem
        exact hr ((dedupFirst_mem _ _).mpr (List.mem_map.mpr ⟨r, hmem, rfl⟩))
      exact (List.count_eq_zero.mpr hrr).symm
  · intro r hr
    simp only [export_shapefile]
    rw [List.countP_map]
    have hcong : ∀ t ∈ dedupFirst (gdf.rows.map (fun x => x.geomType)),
        ((fun e : String × List Row => decide (r ∈ e.2)) ∘
          (fun t => (dirPath ++ "/" ++ name ++ "_" ++ t ++ ".shp",
            gdf.rows.filter (fun x => x.geomType = t)))) t
          = (fun t => t == r.geomType) t := by
      intro t _
      simp only [Function.comp_apply]
      by_cases hrt : t = r.geomType
      · subst hrt
        have hmem2 : r ∈ gdf.rows.filter (fun x => x.geomType = r.geomType) :=
          List.mem_filter.mpr ⟨hr, by simp⟩
        simp [hmem2]
      · have hnm : r ∉ gdf.rows.filter (fun x => x.geomType = t) := by
          intro hmem
          have hgt : r.geomType = t := by simpa using (List.mem_filter.mp hmem).2
          exact hrt hgt.symm
        simp [hnm, hrt]
    have hstep : (dedupFirst (gdf.rows.map (fun x => x.geomType))).countP
        ((fun e : String × List Row => decide (r ∈ e.2)) ∘
          (fun t => (dirPath ++ "/" ++ name ++ "_" ++ t ++ ".shp",
            gdf.rows.filter (fun x => x.geomType = t))))
        = (dedupFirst (gdf.rows.map (fun x => x.geomType))).countP
            (fun t => t == r.geomType) :=
      List.countP_congr (fun x hx => by rw [hcong x hx])
    rw [hstep]
    have hmem : r.geomType ∈ dedupFirst (gdf.rows.map (fun x => x.geomType)) :=
      (dedupFirst_mem _ _).mpr (List.mem_map.mpr ⟨r, hr, rfl⟩)
    exact List.count_eq_one_of_mem (dedupFirst_nodup _) hmem


/-- A mixed-geometry frame used to instantiate C5. -/
def sampleMixedGdf : GeoDataFrame :=
  ⟨["project_name"],
   [⟨"Point", [Val.vstr "A"]⟩, ⟨"Polygon", [Val.vstr "A"]⟩, ⟨"Point", [Val.vstr "B"]⟩]⟩

theorem c5_geometry_partitioning_witness :
    (export_shapefile sampleMixedGdf "results_yes_maybe" "out").map Prod.fst
      = ["out/results_yes_maybe_Point.shp", "out/results_yes_maybe_Polygon.shp"] ∧
    ((export_shapefile sampleMixedGdf "results_yes_maybe" "out").countP
      (fun e => (⟨"Point", [Val.vstr "A"]⟩ : Row) ∈ e.2)) = 1 :=
  ⟨((c5_geometry_partitioning sampleMixedGdf "results_yes_maybe" "out").2.1).trans (by decide),
   (c5_geometry_partitioning sampleMixedGdf "results_yes_maybe" "out").2.2.2.2
     ⟨"Point", [Val.vstr "A"]⟩ (by decide)⟩

/-- Helper: the index of a freshly appended column. -/
theorem colIdx_append_self (cols : List String) (c : String) (h : c ∉ cols) :
    colIdx (cols ++ [c]) c = some cols.length := by
  induction cols with
  | nil => simp [colIdx]
  | cons x xs ih =>
    have hxc : ¬ x = c := fun hq => h (hq ▸ List.mem_cons_self x xs)
    have hxs : c ∉ xs := fun hq => h (List.mem_cons_of_mem x hq)
    simp [colIdx, hxc, ih hxs]

/-- Helper: reading the freshly appended column of a well-formed row
returns the appended value. -/
theorem getCell_snoc (cols : List String) (cells : List Val) (c : String) (v : Val)
    (hnc : c ∉ cols) (hlen : cells.length = cols.length) :
    getCell (cols ++ [c]) (cells ++ [v]) c = v := by
  rw [getCell, colIdx_append_self cols c hnc]
  simp only [List.getD_eq_getElem?_getD, ← hlen, List.getElem?_concat_length]
  rfl

/-- C7: for every fetched frame processed by the aggregation loop with a
successful fetch, the loop accumulates the `tagProjectName`-tagged frames
where the tag name is the reference's configured display name (defaulting
to `Project {id}` with the resolved id); tagging leaves a frame with an
existing `project_name` column entirely unchanged, and otherwise appends
the column and sets it on every feature to that name. -/
theorem c7_idempotent_tagging (fetch : String → Option (GeoDataFrame × GeoDataFrame))
    (st : GeoDataFrame × GeoDataFrame) (p : ProjectRef) (d1 d2 : GeoDataFrame)
    (hf : fetch (extract_project_id p.pid) = some (d1, d2))
    (hwf : ∀ r ∈ d1.rows, r.cells.length = d1.columns.length) :
    aggregateStep fetch st p
      = (stepCombine st.1
          (tagProjectName (p.name.getD ("Project " ++ extract_project_id p.pid)) d1),
         stepCombine st.2
          (tagProjectName (p.name.getD ("Project " ++ extract_project_id p.pid)) d2)) ∧
    ("project_name" ∈ d1.columns →
      tagProjectName (p.name.getD ("Project " ++ extract_project_id p.pid)) d1 = d1) ∧
    ("project_name" ∉ d1.columns →
      (tagProjectName (p.name.getD ("Project " ++ extract_project_id p.pid)) d1).columns
        = d1.columns ++ ["project_name"] ∧
      ∀ r ∈ (tagProjectName (p.name.getD ("Project " ++ extract_project_id p.pid)) d1).rows,
        getCell (d1.columns ++ ["project_name"]) r.cells "project_name"
          = Val.vstr (p.name.getD ("Project " ++ extract_project_id p.pid))) := by
  refine ⟨?_, ?_, ?_⟩
  · rw [aggregateStep, hf]
  · intro hmem
    rw [tagProjectName, if_pos (by simpa using hmem)]
  · intro hmem
    have hcontains : d1.columns.contains "project_name" = false := by
      simpa using hmem
    constructor
    · rw [tagProjectName, if_neg (by simp only [hcontains]; exact Bool.false_ne_true)]
    · intro r hrm
      rw [tagProjectName, if_neg (by simp only [hcontains]; exact Bool.false_ne_true)] at hrm
      simp only [List.mem_map] at hrm
      obtain ⟨r0, hr0, rfl⟩ := hrm
      exact getCell_snoc d1.columns r0.cells "project_name" _ hmem (hwf r0 hr0)

theorem c7_idempotent_tagging_witness :
    aggregateStep (fun _ => some (⟨["project_name"], [⟨"Point", [Val.vstr "kept"]⟩]⟩,
        ⟨[], [⟨"Polygon", []⟩]⟩))
      (GeoDataFrame.emptyDF, GeoDataFrame.emptyDF) ⟨"p1", none⟩
      = (⟨["project_name"], [⟨"Point", [Val.vstr "kept"]⟩]⟩,
         ⟨["project_name"], [⟨"Polygon", [Val.vstr "Project p1"]⟩]⟩) ∧
    tagProjectName "Project p1" ⟨["project_name"], [⟨"Point", [Val.vstr "kept"]⟩]⟩
      = ⟨["project_name"], [⟨"Point", [Val.vstr "kept"]⟩]⟩ := by
  have h := c7_idempotent_tagging
    (fun _ => some (⟨["project_name"], [⟨"Point", [Val.vstr "kept"]⟩]⟩,
        ⟨[], [⟨"Polygon", []⟩]⟩))
    (GeoDataFrame.emptyDF, GeoDataFrame.emptyDF) ⟨"p1", none⟩
    ⟨["project_name"], [⟨"Point", [Val.vstr "kept"]⟩]⟩ ⟨[], [⟨"Polygon", []⟩]⟩
    rfl (by decide)
  refine ⟨?_, ?_⟩
  · rw [h.1]
    have h2 := h.2.1 (by decide)
    rw [h2]
    decide
  · have h2 := h.2.1 (by decide)
    exact h2


/-- C10: the source-project link list appended to the dataset description
contains exactly one `- [name](url)` bullet per configured project
reference, joined in configuration order, and the `notes` computation is a
function of the settings alone — it gives the same description whatever the
two aggregated collections are, so a project whose fetch failed still
appears. -/
theorem c10_description_links (projects : List ProjectRef)
    (base : Option String) (dd : String) (hne : projects ≠ []) :
    (∃ pre, attach_project_links_to_description projects base dd
      = pre ++ " Source MapSwipe Projects\n\n"
        ++ String.intercalate "\n" (projects.map projectLink)) ∧
    (projects.map projectLink).length = projects.length ∧
    (∀ a b y z : GeoDataFrame, datasetNotes projects dd a b = datasetNotes projects dd y z) := by
  refine ⟨?_, by simp, fun a b y z => rfl⟩
  have hli : (projects.map projectLink).isEmpty = false := by
    cases projects with
    | nil => exact absurd rfl hne
    | cons p ps => rfl
  simp only [attach_project_links_to_description, hli, Bool.false_eq_true, if_false]
  exact ⟨_, rfl⟩

theorem c10_description_links_witness :
    (∃ pre, attach_project_links_to_description
        [⟨"p1", some "Project One"⟩, ⟨"https://mapswipe.org/en/projects/-Oabc/", none⟩]
        (some "desc") "desc"
      = pre ++ " Source MapSwipe Projects\n\n"
        ++ String.intercalate "\n"
            (([⟨"p1", some "Project One"⟩,
               ⟨"https://mapswipe.org/en/projects/-Oabc/", none⟩] : List ProjectRef).map
              projectLink)) ∧
    (([⟨"p1", some "Project One"⟩,
       ⟨"https://mapswipe.org/en/projects/-Oabc/", none⟩] : List ProjectRef).map
        projectLink).length = 2 ∧
    (∀ a b y z : GeoDataFrame,
      datasetNotes [⟨"p1", some "Project One"⟩,
        ⟨"https://mapswipe.org/en/projects/-Oabc/", none⟩] "desc" a b
      = datasetNotes [⟨"p1", some "Project One"⟩,
        ⟨"https://mapswipe.org/en/projects/-Oabc/", none⟩] "desc" y z) :=
  c10_description_links
    [⟨"p1", some "Project One"⟩, ⟨"https://mapswipe.org/en/projects/-Oabc/", none⟩]
    (some "desc") "desc" (by decide)


/-- Helper: a project whose fetch returns the failure pair leaves the
accumulated state untouched. -/
theorem aggregateStep_none (fetch : String → Option (GeoDataFrame × GeoDataFrame))
    (st : GeoDataFrame × GeoDataFrame) (p : ProjectRef)
    (h : fetch (extract_project_id p.pid) = none) :
    aggregateStep fetch st p = st := by
  simp only [aggregateStep, h]

/-- Helper: folding the aggregation step over a project list equals
folding it over the sublist of projects whose fetch succeeds. -/
theorem foldl_aggregate_filter (fetch : String → Option (GeoDataFrame × GeoDataFrame)) :
    ∀ (ps : List ProjectRef) (st : GeoDataFrame × GeoDataFrame),
    ps.foldl (aggregateStep fetch) st
      = (ps.filter (fun p => (fetch (extract_project_id p.pid)).isSome)).foldl
          (aggregateStep fetch) st := by
  intro ps
  induction ps with
  | nil => intro st; rfl
  | cons p ps ih =>
    intro st
    by_cases h : (fetch (extract_project_id p.pid)).isSome = true
    · rw [List.foldl_cons, List.filter_cons, if_pos h, List.foldl_cons, ih]
    · have hnone : fetch (extract_project_id p.pid) = none := by
        cases hv : fetch (extract_project_id p.pid) with
        | none => rfl
        | some v => rw [hv] at h; exact absurd rfl h
      rw [List.foldl_cons, aggregateStep_none fetch st p hnone,
        List.filter_cons, if_neg h, ih]

/-- Helper: the instrumented loop computes the same state and records one
resolved id per configured project, in order. -/
theorem foldl_aggregate_trace (fetch : String → Option (GeoDataFrame × GeoDataFrame)) :
    ∀ (ps : List ProjectRef) (st : GeoDataFrame × GeoDataFrame) (acc : List String),
    ps.foldl (fun st p => (aggregateStep fetch st.1 p, st.2 ++ [extract_project_id p.pid]))
        (st, acc)
      = (ps.foldl (aggregateStep fetch) st,
         acc ++ ps.map (fun p => extract_project_id p.pid)) := by
  intro ps
  induction ps with
  | nil => intro st acc; simp
  | cons p ps ih =>
    intro st acc
    simp only [List.foldl_cons, List.map_cons]
    rw [ih]
    simp

/-- C2: if either of the two retrievals of `fetch_project_data` fails, the
call returns the failure pair `(None, None)` with the error logged (the
function is total, so no exception escapes); the aggregation loop calls
the fetcher exactly once per configured project (no retry), and its result
equals the aggregation over just the projects whose fetch succeeded — the
run continues with the remaining projects. -/
theorem c2_per_project_fault_isolation
    (fetch : String → Option (GeoDataFrame × GeoDataFrame)) (projects : List ProjectRef) :
    (∀ (pid : String) (e : FetchErr) (r2 : Except FetchErr GeoDataFrame),
      fetch_project_data pid (Except.error e) r2
        = (none, ["Failed to fetch data for project " ++ pid ++ ": " ++ e.message])) ∧
    (∀ (pid : String) (d : GeoDataFrame) (e : FetchErr),
      fetch_project_data pid (Except.ok d) (Except.error e)
        = (none, ["Failed to fetch data for project " ++ pid ++ ": " ++ e.message])) ∧
    aggregate_project_data fetch projects
      = aggregate_project_data fetch
          (projects.filter (fun p => (fetch (extract_project_id p.pid)).isSome)) ∧
    (aggregate_project_data_trace fetch projects).2
      = projects.map (fun p => extract_project_id p.pid) ∧
    (aggregate_project_data_trace fetch projects).1
      = aggregate_project_data fetch projects := by
  refine ⟨fun pid e r2 => rfl, fun pid d e => rfl, ?_, ?_, ?_⟩
  · rw [aggregate_project_data, aggregate_project_data,
      foldl_aggregate_filter fetch projects]
  · rw [aggregate_project_data_trace, foldl_aggregate_trace fetch projects]
    simp
  · rw [aggregate_project_data_trace, foldl_aggregate_trace fetch projects,
      aggregate_project_data]


/-! Helper lemmas about `getCell`, `unionCols` and the combine fold. -/

theorem colIdx_eq_none_of_not_mem (cols : List String) (c : String) (h : c ∉ cols) :
    colIdx cols c = none := by
  induction cols with
  | nil => rfl
  | cons x xs ih =>
    have hx : ¬ x = c := fun hq => h (hq ▸ List.mem_cons_self x xs)
    rw [colIdx, if_neg hx, ih (fun hq => h (List.mem_cons_of_mem x hq))]
    rfl

theorem getCell_not_mem (cols : List String) (cells : List Val) (c : String)
    (h : c ∉ cols) :
    getCell cols cells c = Val.vnull := by
  rw [getCell, colIdx_eq_none_of_not_mem cols c h]

theorem getCell_cons_ne (t : String) (ts : List String) (v : Val) (vs : List Val)
    (c : String) (h : ¬ t = c) :
    getCell (t :: ts) (v :: vs) c = getCell ts vs c := by
  rw [getCell, getCell, colIdx, if_neg h]
  cases colIdx ts c with
  | none => rfl
  | some i => simp

theorem getCell_reindex (src tgt : List String) (cells : List Val) (c : String) :
    getCell tgt (reindexCells src tgt cells) c
      = if c ∈ tgt then getCell src cells c else Val.vnull := by
  induction tgt with
  | nil => simp [reindexCells, getCell, colIdx]
  | cons t ts ih =>
    rw [reindexCells, List.map_cons]
    by_cases htc : t = c
    · subst htc
      rw [getCell, colIdx, if_pos rfl]
      simp
    · rw [getCell_cons_ne t ts _ _ c htc, ← reindexCells, ih]
      by_cases hm : c ∈ ts
      · rw [if_pos hm, if_pos (List.mem_cons_of_mem t hm)]
      · rw [if_neg hm, if_neg (by
          simp only [List.mem_cons, hm, or_false]
          exact fun hq => htc hq.symm)]

theorem mem_unionCols (a b : List String) (c : String) :
    c ∈ unionCols a b ↔ c ∈ a ∨ c ∈ b := by
  rw [unionCols, List.mem_append, List.mem_filter]
  by_cases hca : c ∈ a
  · simp [hca]
  · simp [hca]

/-- The combine fold from a nonempty accumulated frame: the columns are
the union, the rows are the accumulated rows followed by all frames' rows
in order, and every cell read in the final schema equals the read in the
row's own source schema (null for columns the source lacks). -/
theorem fold_concat_spec :
    ∀ (dfs : List GeoDataFrame) (acc : GeoDataFrame), acc.rows ≠ [] →
    (∀ c, c ∈ (dfs.foldl stepCombine acc).columns
      ↔ c ∈ acc.columns ∨ ∃ df ∈ dfs, c ∈ df.columns) ∧
    ((dfs.foldl stepCombine acc).rows.map (fun r => r.geomType)
      = acc.rows.map (fun r => r.geomType)
        ++ dfs.flatMap (fun df => df.rows.map (fun r => r.geomType))) ∧
    (∀ c, (dfs.foldl stepCombine acc).rows.map
        (fun r => getCell (dfs.foldl stepCombine acc).columns r.cells c)
      = acc.rows.map (fun r => getCell acc.columns r.cells c)
        ++ dfs.flatMap (fun df => df.rows.map (fun r => getCell df.columns r.cells c))) := by
  intro dfs
  induction dfs with
  | nil =>
    intro acc hacc
    refine ⟨fun c => by simp, by simp, fun c => by simp⟩
  | cons df dfs ih =>
    intro acc hacc
    have hstep : stepCombine acc df = concatDF acc df := by
      rw [stepCombine, if_neg]
      simp [GeoDataFrame.isEmptyDF, hacc]
    have hacc2 : (concatDF acc df).rows ≠ [] := by
      rw [concatDF]
      simp only [ne_eq, List.append_eq_nil, List.map_eq_nil_iff]
      intro hq
      exact hacc hq.1
    have hih := ih (concatDF acc df) hacc2
    rw [List.foldl_cons, hstep]
    refine ⟨?_, ?_, ?_⟩
    · intro c
      rw [hih.1 c]
      have hu : c ∈ (concatDF acc df).columns ↔ c ∈ acc.columns ∨ c ∈ df.columns :=
        mem_unionCols acc.columns df.columns c
      rw [hu, List.exists_mem_cons_iff]
      exact or_assoc
    · rw [hih.2.1]
      have hg : (concatDF acc df).rows.map (fun r => r.geomType)
          = acc.rows.map (fun r => r.geomType) ++ df.rows.map (fun r => r.geomType) := by
        rw [concatDF]
        simp only [List.map_append, List.map_map]
        congr 1
      rw [hg, List.flatMap_cons, List.append_assoc]
    · intro c
      rw [hih.2.2 c]
      have hcells : (concatDF acc df).rows.map
          (fun r => getCell (concatDF acc df).columns r.cells c)
          = acc.rows.map (fun r => getCell acc.columns r.cells c)
            ++ df.rows.map (fun r => getCell df.columns r.cells c) := by
        rw [concatDF]
        simp only [List.map_append, List.map_map]
        congr 1
        · apply List.map_congr_left
          intro r _
          simp only [Function.comp_apply, reindexRow]
          rw [getCell_reindex]
          by_cases hm : c ∈ unionCols acc.columns df.columns
          · rw [if_pos hm]
          · rw [if_neg hm]
            have hna : c ∉ acc.columns := fun hq =>
              hm ((mem_unionCols _ _ c).mpr (Or.inl hq))
            rw [getCell_not_mem _ _ _ hna]
        · apply List.map_congr_left
          intro r _
          simp only [Function.comp_apply, reindexRow]
          rw [getCell_reindex]
          by_cases hm : c ∈ unionCols acc.columns df.columns
          · rw [if_pos hm]
          · rw [if_neg hm]
            have hnb : c ∉ df.columns := fun hq =>
              hm ((mem_unionCols _ _ c).mpr (Or.inr hq))
            rw [getCell_not_mem _ _ _ hnb]
      rw [hcells, List.flatMap_cons, List.append_assoc]


/-- The display name the aggregation loop attaches for a reference. -/
def displayName (p : ProjectRef) : String :=
  p.name.getD ("Project " ++ extract_project_id p.pid)

/-- The tagged yes/maybe frames of the projects whose fetch succeeded, in
configuration order (the collections that contribute to the concat). -/
def successYesFrames (fetch : String → Option (GeoDataFrame × GeoDataFrame))
    (ps : List ProjectRef) : List GeoDataFrame :=
  ps.filterMap (fun p => (fetch (extract_project_id p.pid)).map
    (fun pr => tagProjectName (displayName p) pr.1))

/-- The tagged AOI frames of the projects whose fetch succeeded. -/
def successAoiFrames (fetch : String → Option (GeoDataFrame × GeoDataFrame))
    (ps : List ProjectRef) : List GeoDataFrame :=
  ps.filterMap (fun p => (fetch (extract_project_id p.pid)).map
    (fun pr => tagProjectName (displayName p) pr.2))

/-- Helper: the aggregation loop is, side by side, the combine fold over
the tagged frames of the successful projects. -/
theorem aggregate_eq_sides (fetch : String → Option (GeoDataFrame × GeoDataFrame)) :
    ∀ (ps : List ProjectRef) (st : GeoDataFrame × GeoDataFrame),
    ps.foldl (aggregateStep fetch) st
      = ((successYesFrames fetch ps).foldl stepCombine st.1,
         (successAoiFrames fetch ps).foldl stepCombine st.2) := by
  intro ps
  induction ps with
  | nil => intro st; rfl
  | cons p ps ih =>
    intro st
    rw [List.foldl_cons, successYesFrames, successAoiFrames,
      List.filterMap_cons, List.filterMap_cons]
    cases hf : fetch (extract_project_id p.pid) with
    | none =>
      rw [aggregateStep_none fetch st p hf]
      simp only [Option.map_none']
      exact ih st
    | some pr =>
      simp only [Option.map_some']
      rw [List.foldl_cons, List.foldl_cons]
      have hstep : aggregateStep fetch st p
          = (stepCombine st.1 (tagProjectName (displayName p) pr.1),
             stepCombine st.2 (tagProjectName (displayName p) pr.2)) := by
        simp only [aggregateStep, hf, displayName]
      rw [hstep]
      exact ih _

/-- The fetch oracle of the C1 counterexample: the first project yields a
zero-row results frame carrying attribute `a`, the second a one-row
results frame carrying attribute `b` (both already tagged). -/
def c1Fetch : String → Option (GeoDataFrame × GeoDataFrame) := fun pid =>
  if pid = "p1" then
    some (⟨["a", "project_name"], []⟩,
          ⟨["project_name"], [⟨"Polygon", [Val.vstr "A"]⟩]⟩)
  else if pid = "p2" then
    some (⟨["b", "project_name"], [⟨"Point", [Val.vstr "B", Val.vstr "A2"]⟩]⟩,
          ⟨["project_name"], [⟨"Polygon", [Val.vstr "B"]⟩]⟩)
  else none

/-- C1, counterexample: with two successfully fetched results collections
whose attribute sets are `{a, project_name}` (zero rows) and
`{b, project_name}` (one row), the aggregated results collection has
attribute set `{b, project_name}`: attribute `a` of the first contributing
collection is dropped, because the `combined.empty` seeding check treats
the accumulated zero-row frame as "no data yet" and replaces it. -/
theorem c1_counterexample :
    (aggregate_project_data c1Fetch [⟨"p1", some "A"⟩, ⟨"p2", some "B"⟩]).1.columns
      = ["b", "project_name"] ∧
    "a" ∈ (successYesFrames c1Fetch [⟨"p1", some "A"⟩, ⟨"p2", some "B"⟩]).flatMap
        GeoDataFrame.columns ∧
    "a" ∉ (aggregate_project_data c1Fetch [⟨"p1", some "A"⟩, ⟨"p2", some "B"⟩]).1.columns := by
  refine ⟨by decide, by decide, by decide⟩

/-- C1 (amended): when every successfully fetched (and `project_name`
tagged) results collection has at least one feature, the aggregated
results collection's attribute set equals the union of the contributing
collections' attribute sets, its rows are the contributing rows in
project order, each cell reads as in its source collection, and a row
holds null for every attribute absent from its source collection; no
attribute is dropped. -/
theorem c1_schema_widening (fetch : String → Option (GeoDataFrame × GeoDataFrame))
    (ps : List ProjectRef)
    (hnz : ∀ df ∈ successYesFrames fetch ps, df.rows ≠ []) :
    (∀ c, c ∈ (aggregate_project_data fetch ps).1.columns
      ↔ ∃ df ∈ successYesFrames fetch ps, c ∈ df.columns) ∧
    ((aggregate_project_data fetch ps).1.rows.map (fun r => r.geomType)
      = (successYesFrames fetch ps).flatMap (fun df => df.rows.map (fun r => r.geomType))) ∧
    (∀ c, (aggregate_project_data fetch ps).1.rows.map
        (fun r => getCell (aggregate_project_data fetch ps).1.columns r.cells c)
      = (successYesFrames fetch ps).flatMap
          (fun df => df.rows.map (fun r => getCell df.columns r.cells c))) ∧
    (∀ df ∈ successYesFrames fetch ps, ∀ r ∈ df.rows, ∀ c, c ∉ df.columns →
      getCell df.columns r.cells c = Val.vnull) := by
  have hside : (aggregate_project_data fetch ps).1
      = (successYesFrames fetch ps).foldl stepCombine GeoDataFrame.emptyDF := by
    rw [aggregate_project_data, aggregate_eq_sides fetch ps]
  rcases hYF : successYesFrames fetch ps with _ | ⟨d, ds⟩
  · rw [hYF] at hside
    simp only [List.foldl_nil] at hside
    refine ⟨?_, ?_, ?_, fun df _ r _ c hc => getCell_not_mem df.columns r.cells c hc⟩
    · intro c
      rw [hside]
      simp [GeoDataFrame.emptyDF]
    · rw [hside]
      simp [GeoDataFrame.emptyDF]
    · intro c
      rw [hside]
      simp [GeoDataFrame.emptyDF]
  · rw [hYF] at hside
    have hd : d.rows ≠ [] := hnz d (by rw [hYF]; exact List.mem_cons_self d ds)
    have hseed : stepCombine GeoDataFrame.emptyDF d = d := by
      rw [stepCombine, if_pos]
      rfl
    have hfold : ((d :: ds).foldl stepCombine GeoDataFrame.emptyDF)
        = ds.foldl stepCombine d := by
      rw [List.foldl_cons, hseed]
    rw [hfold] at hside
    have hspec := fold_concat_spec ds d hd
    refine ⟨?_, ?_, ?_, fun df _ r _ c hc => getCell_not_mem df.columns r.cells c hc⟩
    · intro c
      rw [hside, hspec.1 c, List.exists_mem_cons_iff]
    · rw [hside, hspec.2.1, List.flatMap_cons]
    · intro c
      rw [hside, hspec.2.2 c, List.flatMap_cons]

/-- A fetch oracle on which both projects yield nonempty results frames
with disjoint attribute sets. -/
def c1GoodFetch : String → Option (GeoDataFrame × GeoDataFrame) := fun pid =>
  if pid = "p1" then
    some (⟨["severity"], [⟨"Point", [Val.vnum 3]⟩]⟩, ⟨[], [⟨"Polygon", []⟩]⟩)
  else if pid = "p2" then
    some (⟨["confidence"], [⟨"Point", [Val.vnum 9]⟩]⟩, ⟨[], [⟨"Polygon", []⟩]⟩)
  else none

theorem c1_schema_widening_witness :
    "severity" ∈ (aggregate_project_data c1GoodFetch
      [⟨"p1", some "A"⟩, ⟨"p2", some "B"⟩]).1.columns ∧
    "confidence" ∈ (aggregate_project_data c1GoodFetch
      [⟨"p1", some "A"⟩, ⟨"p2", some "B"⟩]).1.columns :=
  ⟨((c1_schema_widening c1GoodFetch [⟨"p1", some "A"⟩, ⟨"p2", some "B"⟩]
      (by decide)).1 "severity").mpr
      ⟨⟨["severity", "project_name"], [⟨"Point", [Val.vnum 3, Val.vstr "A"]⟩]⟩,
        by decide, by decide⟩,
   ((c1_schema_widening c1GoodFetch [⟨"p1", some "A"⟩, ⟨"p2", some "B"⟩]
      (by decide)).1 "confidence").mpr
      ⟨⟨["confidence", "project_name"], [⟨"Point", [Val.vnum 9, Val.vstr "B"]⟩]⟩,
        by decide, by decide⟩⟩


end Mapswipe2hdx
